import Mathlib

/-!
Shallow embedding of `src/code/loss/__init__.py` (class `Loss`).

The individual loss-term sub-modules (`nn.MSELoss`, `loss.charbonnier`, `loss.vgg`,
`loss.adversarial`, ...) are external collaborators: here they are represented by
an identifier recording exactly which constructor the dispatch chain selected and
with which arguments, and at `forward` time their numeric values are supplied as
explicit function parameters.  Tensors are lists of pixels, each pixel a list of
channel values, with exact rational arithmetic in place of floating point.
-/

/-- Characters of `pat` occur at the head of `s`. -/
def firstMatches : List Char → List Char → Bool
  | [], _ => true
  | _ :: _, [] => false
  | p :: ps, c :: cs => p == c && firstMatches ps cs

/-- Substring occurrence test on character lists; models Python `s.find(pat) >= 0`. -/
def occursIn (pat : List Char) : List Char → Bool
  | [] => firstMatches pat []
  | c :: cs => firstMatches pat (c :: cs) || occursIn pat cs

/-- Models Python `s.find(pat) >= 0` (substring containment). -/
def strContains (s pat : String) : Bool :=
  occursIn pat.data s.data

/-- Split a character list at every occurrence of `sep`, keeping empty pieces,
exactly as Python `str.split(sep)` with an explicit one-character separator. -/
def splitChar (sep : Char) : List Char → List (List Char)
  | [] => [[]]
  | c :: cs =>
    if c == sep then [] :: splitChar sep cs
    else
      match splitChar sep cs with
      | g :: gs => (c :: g) :: gs
      | [] => [[c]]

/-- Python `s.split(sep)` for a one-character separator. -/
def pySplit (s : String) (sep : Char) : List String :=
  (splitChar sep s.data).map String.mk

/-- Leading decimal digits of a character list, with the remaining characters. -/
def takeDigits : List Char → List ℕ × List Char
  | [] => ([], [])
  | c :: cs =>
    if c.isDigit then
      let p := takeDigits cs
      ((c.toNat - 48) :: p.1, p.2)
    else ([], c :: cs)

/-- Value of a most-significant-first digit list. -/
def natFromDigits (ds : List ℕ) : ℕ :=
  ds.foldl (fun a d => a * 10 + d) 0

/-- Parse an optionally signed, non-empty digit run that must reach the end of
the input: the exponent part of a decimal literal. -/
def parseExpDigits (cs : List Char) : Option ℤ :=
  match cs with
  | [] => none
  | c :: r =>
    if c == '+' then
      let p := takeDigits r
      if p.1 = [] ∨ p.2 ≠ [] then none else some (natFromDigits p.1 : ℤ)
    else if c == '-' then
      let p := takeDigits r
      if p.1 = [] ∨ p.2 ≠ [] then none else some (-(natFromDigits p.1 : ℤ))
    else
      let p := takeDigits (c :: r)
      if p.1 = [] ∨ p.2 ≠ [] then none else some (natFromDigits p.1 : ℤ)

/-- Scale a mantissa by a signed power of ten. -/
def applyExp10 (m : ℚ) (e : ℤ) : ℚ :=
  if 0 ≤ e then m * 10 ^ e.toNat else m / 10 ^ (-e).toNat

/-- Unsigned part of a Python decimal literal: digits, optional fractional part,
optional exponent.  `none` when the input is not such a literal. -/
def pyFloatCore (cs : List Char) : Option ℚ :=
  let ip := takeDigits cs
  match ip.2 with
  | [] => if ip.1 = [] then none else some (natFromDigits ip.1 : ℚ)
  | c :: r2 =>
    if c == '.' then
      let fp := takeDigits r2
      if ip.1 = [] ∧ fp.1 = [] then none
      else
        let m : ℚ := (natFromDigits ip.1 : ℚ) + (natFromDigits fp.1 : ℚ) / 10 ^ fp.1.length
        match fp.2 with
        | [] => some m
        | c2 :: r4 =>
          if c2 == 'e' || c2 == 'E' then (parseExpDigits r4).map (applyExp10 m) else none
    else if (c == 'e' || c == 'E') && !(ip.1 = []) then
      (parseExpDigits r2).map (applyExp10 (natFromDigits ip.1 : ℚ))
    else none

/-- Models Python `float(s)` on weight strings, with exact rationals in place of
binary floating point.  The builtin additionally accepts surrounding whitespace,
digit-group underscores and `inf`/`nan` spellings; those forms are outside the
grammar used by loss-configuration strings and are not modelled. -/
def pyFloat? (s : String) : Option ℚ :=
  match s.data with
  | [] => none
  | c :: cs =>
    if c == '+' then pyFloatCore cs
    else if c == '-' then (pyFloatCore cs).map Neg.neg
    else pyFloatCore (c :: cs)

/-- Identifier of the loss sub-module selected by the dispatch chain of
`Loss.__init__`, together with the constructor arguments taken from `args`. -/
inductive FnId where
  | MSELoss : FnId
  | L1Loss : FnId
  | Charbonnier : FnId
  | GradL2 (n_channel_out : ℕ) (gpu : Bool) : FnId
  | SSIM (patch_size batch_size n_channel_out : ℕ) (gpu : Bool) : FnId
  | MSSSIM (patch_size batch_size n_channel_out : ℕ) (gpu : Bool) : FnId
  | WeightedMSE : FnId
  | VGG (conv_index : String) (rgb_range : ℚ) : FnId
  | Adversarial (gan_type : String) : FnId
deriving DecidableEq, Repr

/-- One entry of `self.loss`: the dict `{'type': ..., 'weight': ..., 'function': ...}`. -/
structure LossTerm where
  type : String
  weight : ℚ
  function : Option FnId
deriving DecidableEq, Repr

/-- The scalar hyperparameters of `args` that `Loss.__init__` reads.  Device
and precision handling (`n_GPUs`, `precision`, `load`) only move modules between
devices or trigger a checkpoint load and are not modelled here. -/
structure Args where
  loss : String
  intensity_loss : Bool
  normalized_loss : Bool
  rgb_range : ℚ
  n_channel_out : ℕ
  patch_size : ℕ
  batch_size : ℕ
  cpu : Bool
deriving DecidableEq, Repr

/-- Exceptions that `Loss.__init__` can raise. -/
inductive InitError where
  | unpackValueError : InitError
  | floatValueError : InitError
  | nameError : InitError
  | notImplementedError : InitError
deriving DecidableEq, Repr

/-- The `if`/`elif` dispatch chain on `loss_type`.  `none` means the chain falls
through without assigning `loss_function` (an unrecognized kind). -/
def dispatch (args : Args) (loss_type : String) : Option FnId :=
  if loss_type == "MSE" then some FnId.MSELoss
  else if loss_type == "L1" then some FnId.L1Loss
  else if loss_type == "Charbonnier" then some FnId.Charbonnier
  else if loss_type == "GradL2" then some (FnId.GradL2 args.n_channel_out (!args.cpu))
  else if loss_type == "SSIM" then
    some (FnId.SSIM args.patch_size args.batch_size args.n_channel_out (!args.cpu))
  else if loss_type == "MSSSIM" then
    some (FnId.MSSSIM args.patch_size args.batch_size args.n_channel_out (!args.cpu))
  else if loss_type == "WeightedMSE" then some FnId.WeightedMSE
  else if strContains loss_type "VGG" then
    some (FnId.VGG (String.mk (loss_type.data.drop 3)) args.rgb_range)
  else if strContains loss_type "GAN" then some (FnId.Adversarial loss_type)
  else none

/-- One iteration of the parsing loop of `Loss.__init__`.  The state carries the
accumulated `self.loss` list together with the current binding of the Python
local variable `loss_function`, which survives across iterations: when the
dispatch chain falls through, the previous binding is what the `append` reads.
The dict literal evaluates `float(weight)` before reading `loss_function`, so a
bad weight raises `ValueError` before an unbound `loss_function` raises
`NameError`. -/
def initStep (args : Args) (st : List LossTerm × Option FnId) (term : String) :
    Except InitError (List LossTerm × Option FnId) :=
  match pySplit term '*' with
  | [w, loss_type] =>
    let fn : Option FnId :=
      match dispatch args loss_type with
      | some f => some f
      | none => st.2
    match pyFloat? w with
    | none => Except.error InitError.floatValueError
    | some weight =>
      match fn with
      | none => Except.error InitError.nameError
      | some f =>
        let acc := st.1 ++ [⟨loss_type, weight, some f⟩]
        let acc :=
          if strContains loss_type "GAN" then acc ++ [⟨"DIS", 1, none⟩] else acc
        Except.ok (acc, some f)
  | _ => Except.error InitError.unpackValueError

/-- The parsing loop `for loss in args.loss.split('+')` of `Loss.__init__`,
stopping at the first raised exception. -/
def initFold (args : Args) : List String → List LossTerm × Option FnId →
    Except InitError (List LossTerm × Option FnId)
  | [], st => Except.ok st
  | t :: ts, st =>
    match initStep args st t with
    | Except.error e => Except.error e
    | Except.ok st2 => initFold args ts st2

/-- The intensity-projection kernel set up before the parsing loop:
`torch.zeros((1,3,1,1))`, overwritten with the luma weights when
`rgb_range == 255`, `NotImplementedError` when `rgb_range == 1`, and left at
zero for any other range (the `if`/`elif` has no final `else`). -/
def intensityConvOf (args : Args) : Except InitError (List ℚ) :=
  if args.intensity_loss then
    if args.rgb_range == 255 then Except.ok [299/1000, 587/1000, 114/1000]
    else if args.rgb_range == 1 then Except.error InitError.notImplementedError
    else Except.ok [0, 0, 0]
  else Except.ok [0, 0, 0]

/-- The state of a `Loss` instance that the claims are about. -/
structure LossState where
  lossList : List LossTerm
  intensity_conv : List ℚ
  intensity_loss : Bool
  normalize : Bool
  rgb_range : ℚ
  log : List (List ℚ)
deriving DecidableEq, Repr

/-- `Loss.__init__`: intensity-kernel setup, the parsing loop over
`args.loss.split('+')`, and the `Total` entry appended when the list (synthetic
`DIS` entries included) has more than one element.  `self.log` starts as an
empty tensor. -/
def Loss.init (args : Args) : Except InitError LossState :=
  match intensityConvOf args with
  | Except.error e => Except.error e
  | Except.ok conv =>
    match initFold args (pySplit args.loss '+') ([], none) with
    | Except.error e => Except.error e
    | Except.ok p =>
      let lst := if p.1.length > 1 then p.1 ++ [⟨"Total", 0, none⟩] else p.1
      Except.ok
        { lossList := lst
          intensity_conv := conv
          intensity_loss := args.intensity_loss
          normalize := args.normalized_loss
          rgb_range := args.rgb_range
          log := [] }

/-- An image tensor: a list of pixels, each a list of channel values. -/
def Tensor : Type := List (List ℚ)

/-- Dot product of a kernel with a pixel's channel values. -/
def dotQ : List ℚ → List ℚ → ℚ
  | a :: as, b :: bs => a * b + dotQ as bs
  | _, _ => 0

/-- `nn.functional.conv2d` with a fixed `1 × C × 1 × 1` kernel: every pixel is
reduced to the single channel given by the kernel dot product. -/
def conv1x1 (k : List ℚ) (x : Tensor) : Tensor :=
  x.map (fun px => [dotQ k px])

/-- Elementwise division of a tensor by a scalar. -/
def tdiv (x : Tensor) (r : ℚ) : Tensor :=
  x.map (fun px => px.map (fun v => v / r))

/-- The input transformation at the top of `Loss.forward`: the optional
intensity projection followed by the optional normalization, applied to `sr`
and `hr` alike. -/
def Loss.preprocess (st : LossState) (t : Tensor) : Tensor :=
  let t2 := if st.intensity_loss then conv1x1 st.intensity_conv t else t
  if st.normalize then tdiv t2 st.rgb_range else t2

/-- Add `v` to the entry of `row` at column `i`.  An out-of-range column leaves
the row unchanged (the source would raise `IndexError` there; no claim reaches
that case). -/
def addAt : List ℚ → ℕ → ℚ → List ℚ
  | [], _, _ => []
  | x :: xs, 0, v => (x + v) :: xs
  | x :: xs, n + 1, v => x :: addAt xs n v

/-- `self.log[-1, i] += v`: add `v` at column `i` of the last row.  On an empty
log the source would raise `IndexError`; no claim reaches that case. -/
def updateLast : List (List ℚ) → ℕ → ℚ → List (List ℚ)
  | [], _, _ => []
  | [r], i, v => [addAt r i v]
  | r :: rs, i, v => r :: updateLast rs i v

/-- `self.log[-1, -1] += v`: add `v` at the final column of the last row. -/
def addLastCol : List (List ℚ) → ℚ → List (List ℚ)
  | [], _ => []
  | [r], v => [addAt r (r.length - 1) v]
  | r :: rs, v => r :: addLastCol rs v

/-- The `for i, l in enumerate(self.loss)` loop of `Loss.forward`.  `full` is
the whole `self.loss` list (used by the `DIS` branch to read
`self.loss[i - 1]['function']`, where Python index `-1` wraps to the last
entry), `F f` is the value the callable `f` returns on the already-transformed
inputs, and `dis f` is the `.loss` attribute of the adversarial sub-module `f`.
The accumulator carries the `losses` list and the log.  When a `DIS` entry is
not preceded by a callable the source would raise `AttributeError`; that case
is unreachable from `Loss.init` and leaves the log unchanged here. -/
def forwardLoop (full : List LossTerm) (F : FnId → ℚ) (dis : FnId → ℚ) :
    List LossTerm → ℕ → List ℚ × List (List ℚ) → List ℚ × List (List ℚ)
  | [], _, acc => acc
  | l :: ls, i, acc =>
    match l.function with
    | some f =>
      forwardLoop full F dis ls (i + 1)
        (acc.1 ++ [l.weight * F f], updateLast acc.2 i (l.weight * F f))
    | none =>
      if l.type == "DIS" then
        match (full.get? (if i = 0 then full.length - 1 else i - 1)).bind
            (fun l2 => l2.function) with
        | some g => forwardLoop full F dis ls (i + 1) (acc.1, updateLast acc.2 i (dis g))
        | none => forwardLoop full F dis ls (i + 1) acc
      else forwardLoop full F dis ls (i + 1) acc

/-- `Loss.forward(sr, hr)`: transform the inputs, run the term loop, return
`sum(losses)` and, when the loss list has more than one entry, also add that
sum at the last column of the current log row. -/
def Loss.forward (st : LossState) (F : FnId → Tensor → Tensor → ℚ) (dis : FnId → ℚ)
    (sr hr : Tensor) : ℚ × LossState :=
  let sr2 := Loss.preprocess st sr
  let hr2 := Loss.preprocess st hr
  let res := forwardLoop st.lossList (fun f => F f sr2 hr2) dis st.lossList 0 ([], st.log)
  let loss_sum := res.1.foldl (fun a b => a + b) 0
  let log2 := if st.lossList.length > 1 then addLastCol res.2 loss_sum else res.2
  (loss_sum, { st with log := log2 })

/-- `Loss.start_log`: append one zero row of width `len(self.loss)`. -/
def Loss.start_log (st : LossState) : LossState :=
  { st with log := st.log ++ [List.replicate st.lossList.length 0] }

/-- Apply `f` to the last row of the log, leaving every other row in place. -/
def mapLastRow (f : List ℚ → List ℚ) : List (List ℚ) → List (List ℚ)
  | [] => []
  | [r] => [f r]
  | r :: rs => r :: mapLastRow f rs

/-- `Loss.end_log(n_batches)`: `self.log[-1].div_(n_batches)`, dividing the
last row in place. -/
def Loss.end_log (st : LossState) (n_batches : ℚ) : LossState :=
  { st with log := mapLastRow (fun r => r.map (fun v => v / n_batches)) st.log }

/-- A sub-module held in `self.loss_module`: its identifier and, when it has a
`scheduler` attribute, the number of scheduler steps taken so far. -/
structure SubModule where
  fn : FnId
  schedulerSteps : Option ℕ
deriving DecidableEq, Repr

/-- `l.scheduler.step()`: advance the step counter by one. -/
def schedStep (m : SubModule) : SubModule :=
  { m with schedulerSteps := m.schedulerSteps.map (fun k => k + 1) }

/-- `for _ in range(n): l.scheduler.step()`. -/
def replaySched (m : SubModule) : ℕ → SubModule
  | 0 => m
  | n + 1 => schedStep (replaySched m n)

/-- `Loss.load`: after `load_state_dict` (opaque learned state, not modelled)
and `self.log = torch.load(...)`, every member of `self.loss_module` with a
`scheduler` attribute is stepped once per row of the restored log.  Returns the
updated module list and the restored log. -/
def Loss.load (modules : List SubModule) (restoredLog : List (List ℚ)) :
    List SubModule × List (List ℚ) :=
  (modules.map (fun m =>
      if m.schedulerSteps.isSome then replaySched m restoredLog.length else m),
    restoredLog)

/-- One call in the logging life cycle of a `Loss` instance. -/
inductive LogOp where
  | startLog : LogOp
  | forwardOp (F : FnId → Tensor → Tensor → ℚ) (dis : FnId → ℚ) (sr hr : Tensor) : LogOp
  | endLog (n : ℚ) : LogOp

/-- Run one logging-life-cycle call on a state. -/
def applyLogOp (st : LossState) : LogOp → LossState
  | LogOp.startLog => Loss.start_log st
  | LogOp.forwardOp F dis sr hr => (Loss.forward st F dis sr hr).2
  | LogOp.endLog n => Loss.end_log st n

/-- Run a sequence of logging-life-cycle calls. -/
def runLogOps (st : LossState) (ops : List LogOp) : LossState :=
  ops.foldl applyLogOp st

/-- The weighted value of each entry whose callable is present, in list order:
`l.weight * F f` for every `l` with `function = some f`.  This is the
specification-side description of the `losses` list built by `Loss.forward`. -/
def effList (F : FnId → ℚ) (ls : List LossTerm) : List ℚ :=
  ls.filterMap (fun l => l.function.map (fun f => l.weight * F f))

/-- Specification-side weighted sum: the sum, over exactly the entries with a
callable, of weight times the callable's value. -/
def weightedTermSum (F : FnId → ℚ) (ls : List LossTerm) : ℚ :=
  (effList F ls).foldl (fun a b => a + b) 0

/-- The action of the `Loss.forward` term loop on the current log row alone,
used to reason about the loop through `forwardLoop_snd_append`. -/
def rowLoop (full : List LossTerm) (F : FnId → ℚ) (dis : FnId → ℚ) :
    List LossTerm → ℕ → List ℚ → List ℚ
  | [], _, row => row
  | l :: ls, i, row =>
    match l.function with
    | some f => rowLoop full F dis ls (i + 1) (addAt row i (l.weight * F f))
    | none =>
      if l.type == "DIS" then
        match (full.get? (if i = 0 then full.length - 1 else i - 1)).bind
            (fun l2 => l2.function) with
        | some g => rowLoop full F dis ls (i + 1) (addAt row i (dis g))
        | none => rowLoop full F dis ls (i + 1) row
      else rowLoop full F dis ls (i + 1) row

/-- A baseline argument record: CPU run, no intensity projection, no
normalization, 8-bit color range, with the given configuration string. -/
def plainArgs (lossStr : String) : Args :=
  { loss := lossStr
    intensity_loss := false
    normalized_loss := false
    rgb_range := 255
    n_channel_out := 3
    patch_size := 96
    batch_size := 16
    cpu := true }

/-- Arguments with the intensity projection enabled and the given color range. -/
def intensityArgs (lossStr : String) (range : ℚ) : Args :=
  { loss := lossStr
    intensity_loss := true
    normalized_loss := false
    rgb_range := range
    n_channel_out := 3
    patch_size := 96
    batch_size := 16
    cpu := true }

/-- The state built by `Loss.init (plainArgs "1*MSE+0.5*L1")`, written out, for
use as a concrete instance in witnesses. -/
def stTwoTerm : LossState :=
  { lossList :=
      [⟨"MSE", 1, some FnId.MSELoss⟩, ⟨"L1", 1/2, some FnId.L1Loss⟩,
       ⟨"Total", 0, none⟩]
    intensity_conv := [0, 0, 0]
    intensity_loss := false
    normalize := false
    rgb_range := 255
    log := [] }

/-- `stTwoTerm` with one zero log row already started. -/
def stTwoTermRow : LossState :=
  { stTwoTerm with log := [[0, 0, 0]] }

/-- The state built by `Loss.init (intensityArgs "1*MSE" 255)`, written out. -/
def stIntensity : LossState :=
  { lossList := [⟨"MSE", 1, some FnId.MSELoss⟩]
    intensity_conv := [299/1000, 587/1000, 114/1000]
    intensity_loss := true
    normalize := false
    rgb_range := 255
    log := [] }

/-- The state built by `Loss.init (intensityArgs "1*MSE" 300)`, written out:
the intensity kernel silently stays zero for a color range that is neither
255 nor 1. -/
def stIntensity300 : LossState :=
  { lossList := [⟨"MSE", 1, some FnId.MSELoss⟩]
    intensity_conv := [0, 0, 0]
    intensity_loss := true
    normalize := false
    rgb_range := 300
    log := [] }

/-- Numeric value of the character literal '0', for concrete evaluations. -/
@[simp] theorem toNatD0 : Char.toNat '0' = 48 := by decide

/-- Numeric value of the character literal '1', for concrete evaluations. -/
@[simp] theorem toNatD1 : Char.toNat '1' = 49 := by decide

/-- Numeric value of the character literal '2', for concrete evaluations. -/
@[simp] theorem toNatD2 : Char.toNat '2' = 50 := by decide

/-- Numeric value of the character literal '3', for concrete evaluations. -/
@[simp] theorem toNatD3 : Char.toNat '3' = 51 := by decide

/-- Numeric value of the character literal '4', for concrete evaluations. -/
@[simp] theorem toNatD4 : Char.toNat '4' = 52 := by decide

/-- Numeric value of the character literal '5', for concrete evaluations. -/
@[simp] theorem toNatD5 : Char.toNat '5' = 53 := by decide

/-- Numeric value of the character literal '6', for concrete evaluations. -/
@[simp] theorem toNatD6 : Char.toNat '6' = 54 := by decide

/-- Numeric value of the character literal '7', for concrete evaluations. -/
@[simp] theorem toNatD7 : Char.toNat '7' = 55 := by decide

/-- Numeric value of the character literal '8', for concrete evaluations. -/
@[simp] theorem toNatD8 : Char.toNat '8' = 56 := by decide

/-- Numeric value of the character literal '9', for concrete evaluations. -/
@[simp] theorem toNatD9 : Char.toNat '9' = 57 := by decide

/-- `addAt` never changes the length of a row. -/
theorem addAt_length : ∀ (row : List ℚ) (i : ℕ) (v : ℚ),
    (addAt row i v).length = row.length
  | [], _, _ => rfl
  | _ :: _, 0, _ => rfl
  | x :: xs, n + 1, v => by
    simp only [addAt, List.length_cons, addAt_length xs n v]

/-- `addAt` at an index inside the left part of an append acts on that part. -/
theorem addAt_append_left : ∀ (xs ys : List ℚ) (i : ℕ) (v : ℚ), i < xs.length →
    addAt (xs ++ ys) i v = addAt xs i v ++ ys
  | [], _, i, _, h => absurd h (by simp)
  | x :: xs, ys, 0, v, _ => rfl
  | x :: xs, ys, n + 1, v, h => by
    simp only [List.cons_append, addAt, List.cons.injEq, true_and]
    exact addAt_append_left xs ys n v (by simpa using h)

/-- `addAt` at the final index of a row adds to its last entry. -/
theorem addAt_concat_self : ∀ (xs : List ℚ) (z v : ℚ),
    addAt (xs ++ [z]) xs.length v = xs ++ [z + v]
  | [], _, _ => rfl
  | x :: xs, z, v => by
    simp only [List.cons_append, List.length_cons, addAt, List.cons.injEq, true_and]
    exact addAt_concat_self xs z v

/-- `addAt` strictly before the final index leaves the last entry alone. -/
theorem addAt_getLast?_of_lt (row : List ℚ) (i : ℕ) (v : ℚ) (h : i + 1 < row.length) :
    (addAt row i v).getLast? = row.getLast? := by
  rcases List.eq_nil_or_concat row with rfl | ⟨xs, z, rfl⟩
  · simp at h
  · rw [List.concat_eq_append] at *
    rw [addAt_append_left xs [z] i v (by simp at h ⊢; omega)]
    rw [List.getLast?_concat, List.getLast?_concat]

/-- `updateLast` on a log with an exposed last row edits exactly that row. -/
theorem updateLast_append : ∀ (rows : List (List ℚ)) (row : List ℚ) (i : ℕ) (v : ℚ),
    updateLast (rows ++ [row]) i v = rows ++ [addAt row i v]
  | [], _, _, _ => rfl
  | r :: rows, row, i, v => by
    cases rows with
    | nil => rfl
    | cons r2 rows2 =>
      show r :: updateLast ((r2 :: rows2) ++ [row]) i v = _
      rw [updateLast_append (r2 :: rows2) row i v]
      rfl

/-- `addLastCol` on a log with an exposed last row edits exactly that row. -/
theorem addLastCol_append : ∀ (rows : List (List ℚ)) (row : List ℚ) (v : ℚ),
    addLastCol (rows ++ [row]) v = rows ++ [addAt row (row.length - 1) v]
  | [], _, _ => rfl
  | r :: rows, row, v => by
    cases rows with
    | nil => rfl
    | cons r2 rows2 =>
      show r :: addLastCol ((r2 :: rows2) ++ [row]) v = _
      rw [addLastCol_append (r2 :: rows2) row v]
      rfl

/-- `mapLastRow` on a log with an exposed last row maps exactly that row. -/
theorem mapLastRow_append (f : List ℚ → List ℚ) :
    ∀ (rows : List (List ℚ)) (row : List ℚ),
    mapLastRow f (rows ++ [row]) = rows ++ [f row]
  | [], _ => rfl
  | r :: rows, row => by
    cases rows with
    | nil => rfl
    | cons r2 rows2 =>
      show r :: mapLastRow f ((r2 :: rows2) ++ [row]) = _
      rw [mapLastRow_append f (r2 :: rows2) row]
      rfl

/-- `updateLast` preserves the shape (row count and all row widths) of the log. -/
theorem updateLast_map_length : ∀ (log : List (List ℚ)) (i : ℕ) (v : ℚ),
    (updateLast log i v).map List.length = log.map List.length
  | [], _, _ => rfl
  | [r], i, v => by simp [updateLast, addAt_length]
  | r :: r2 :: rs, i, v => by
    show (r :: updateLast (r2 :: rs) i v).map List.length = _
    simp only [List.map_cons, updateLast_map_length (r2 :: rs) i v]

/-- `addLastCol` preserves the shape of the log. -/
theorem addLastCol_map_length : ∀ (log : List (List ℚ)) (v : ℚ),
    (addLastCol log v).map List.length = log.map List.length
  | [], _ => rfl
  | [r], v => by simp [addLastCol, addAt_length]
  | r :: r2 :: rs, v => by
    show (r :: addLastCol (r2 :: rs) v).map List.length = _
    simp only [List.map_cons, addLastCol_map_length (r2 :: rs) v]

/-- `mapLastRow` with a length-preserving row function preserves the shape of
the log. -/
theorem mapLastRow_map_length (f : List ℚ → List ℚ) (hf : ∀ r, (f r).length = r.length) :
    ∀ (log : List (List ℚ)),
    (mapLastRow f log).map List.length = log.map List.length
  | [] => rfl
  | [r] => by simp [mapLastRow, hf]
  | r :: r2 :: rs => by
    show (r :: mapLastRow f (r2 :: rs)).map List.length = _
    simp only [List.map_cons, mapLastRow_map_length f hf (r2 :: rs)]

/-- The `losses` list built by the term loop is exactly `effList`: the weighted
values of the entries whose callable is present, in order, appended to the
accumulator. -/
theorem forwardLoop_fst (full : List LossTerm) (F dis : FnId → ℚ) :
    ∀ (ls : List LossTerm) (i : ℕ) (acc : List ℚ × List (List ℚ)),
    (forwardLoop full F dis ls i acc).1 = acc.1 ++ effList F ls := by
  intro ls
  induction ls with
  | nil => intro i acc; simp [forwardLoop, effList]
  | cons l ls ih =>
    intro i acc
    cases hf : l.function with
    | some f =>
      simp [forwardLoop, hf, effList, List.filterMap_cons, ih]
    | none =>
      by_cases ht : (l.type == "DIS") = true
      · cases hl : (full.get? (if i = 0 then full.length - 1 else i - 1)).bind
            (fun l2 => l2.function) with
        | some g =>
          rw [List.get?_eq_getElem?] at hl
          simp [forwardLoop, hf, ht, hl, effList, List.filterMap_cons, ih]
        | none =>
          rw [List.get?_eq_getElem?] at hl
          simp [forwardLoop, hf, ht, hl, effList, List.filterMap_cons, ih]
      · simp [forwardLoop, hf, ht, effList, List.filterMap_cons, ih]

/-- On a log with an exposed last row, the term loop edits exactly that row,
and its effect on the row is `rowLoop`. -/
theorem forwardLoop_snd_append (full : List LossTerm) (F dis : FnId → ℚ) :
    ∀ (ls : List LossTerm) (i : ℕ) (losses : List ℚ) (rows : List (List ℚ)) (row : List ℚ),
    (forwardLoop full F dis ls i (losses, rows ++ [row])).2
      = rows ++ [rowLoop full F dis ls i row] := by
  intro ls
  induction ls with
  | nil => intro i losses rows row; simp [forwardLoop, rowLoop]
  | cons l ls ih =>
    intro i losses rows row
    cases hf : l.function with
    | some f =>
      simp only [forwardLoop, rowLoop, hf, updateLast_append]
      exact ih (i + 1) _ rows (addAt row i (l.weight * F f))
    | none =>
      by_cases ht : (l.type == "DIS") = true
      · cases hl : (full.get? (if i = 0 then full.length - 1 else i - 1)).bind
            (fun l2 => l2.function) with
        | some g =>
          simp only [forwardLoop, rowLoop, hf, ht, hl, if_true, updateLast_append]
          exact ih (i + 1) _ rows (addAt row i (dis g))
        | none =>
          simp only [forwardLoop, rowLoop, hf, ht, hl, if_true]
          exact ih (i + 1) _ rows row
      · simp only [forwardLoop, rowLoop, hf, ht]
        simp only [Bool.false_eq_true, if_false]
        exact ih (i + 1) _ rows row

/-- `rowLoop` never changes the length of the row. -/
theorem rowLoop_length (full : List LossTerm) (F dis : FnId → ℚ) :
    ∀ (ls : List LossTerm) (i : ℕ) (row : List ℚ),
    (rowLoop full F dis ls i row).length = row.length := by
  intro ls
  induction ls with
  | nil => intro i row; simp [rowLoop]
  | cons l ls ih =>
    intro i row
    cases hf : l.function with
    | some f => simp [rowLoop, hf, ih, addAt_length]
    | none =>
      by_cases ht : (l.type == "DIS") = true
      · cases hl : (full.get? (if i = 0 then full.length - 1 else i - 1)).bind
            (fun l2 => l2.function) with
        | some g =>
          rw [List.get?_eq_getElem?] at hl
          simp [rowLoop, hf, ht, hl, ih, addAt_length]
        | none =>
          rw [List.get?_eq_getElem?] at hl
          simp [rowLoop, hf, ht, hl, ih]
      · simp [rowLoop, hf, ht, ih]

/-- When every entry that can write to the log row sits strictly before the
final column, `rowLoop` leaves the last entry of the row unchanged. -/
theorem rowLoop_getLast? (full : List LossTerm) (F dis : FnId → ℚ) :
    ∀ (ls : List LossTerm) (i : ℕ) (row : List ℚ),
    (∀ (k : ℕ) (l : LossTerm), ls.get? k = some l →
        (l.function.isSome = true ∨ (l.type == "DIS") = true) → i + k + 1 < row.length) →
    (rowLoop full F dis ls i row).getLast? = row.getLast? := by
  intro ls
  induction ls with
  | nil => intro i row _; simp [rowLoop]
  | cons l ls ih =>
    intro i row hb
    have hstep : ∀ e : ℚ, (addAt row i e).getLast? = row.getLast? → 
        (∀ (k : ℕ) (l2 : LossTerm), ls.get? k = some l2 →
          (l2.function.isSome = true ∨ (l2.type == "DIS") = true) →
          i + 1 + k + 1 < (addAt row i e).length) := by
      intro e _ k l2 hk hc
      rw [addAt_length]
      have := hb (k + 1) l2 (by simpa using hk) hc
      omega
    cases hf : l.function with
    | some f =>
      have hlt : i + 1 ≤ row.length - 1 := by
        have := hb 0 l (by simp) (Or.inl (by simp [hf]))
        omega
      have hgl : (addAt row i (l.weight * F f)).getLast? = row.getLast? := by
        apply addAt_getLast?_of_lt
        have := hb 0 l (by simp) (Or.inl (by simp [hf]))
        omega
      simp only [rowLoop, hf]
      rw [ih (i + 1) _ (hstep _ hgl), hgl]
    | none =>
      by_cases ht : (l.type == "DIS") = true
      · cases hl : (full.get? (if i = 0 then full.length - 1 else i - 1)).bind
            (fun l2 => l2.function) with
        | some g =>
          have hgl : (addAt row i (dis g)).getLast? = row.getLast? := by
            apply addAt_getLast?_of_lt
            have := hb 0 l (by simp) (Or.inr ht)
            omega
          simp only [rowLoop, hf, ht, hl, if_true]
          rw [ih (i + 1) _ (hstep _ hgl), hgl]
        | none =>
          simp only [rowLoop, hf, ht, hl, if_true]
          apply ih
          intro k l2 hk hc
          have := hb (k + 1) l2 (by simpa using hk) hc
          omega
      · simp only [rowLoop, hf, ht]
        simp only [Bool.false_eq_true, if_false]
        apply ih
        intro k l2 hk hc
        have := hb (k + 1) l2 (by simpa using hk) hc
        omega

/-- The term loop preserves the shape of the log. -/
theorem forwardLoop_snd_map_length (full : List LossTerm) (F dis : FnId → ℚ) :
    ∀ (ls : List LossTerm) (i : ℕ) (acc : List ℚ × List (List ℚ)),
    ((forwardLoop full F dis ls i acc).2).map List.length = acc.2.map List.length := by
  intro ls
  induction ls with
  | nil => intro i acc; simp [forwardLoop]
  | cons l ls ih =>
    intro i acc
    cases hf : l.function with
    | some f => simp [forwardLoop, hf, ih, updateLast_map_length]
    | none =>
      by_cases ht : (l.type == "DIS") = true
      · cases hl : (full.get? (if i = 0 then full.length - 1 else i - 1)).bind
            (fun l2 => l2.function) with
        | some g =>
          rw [List.get?_eq_getElem?] at hl
          simp [forwardLoop, hf, ht, hl, ih, updateLast_map_length]
        | none =>
          rw [List.get?_eq_getElem?] at hl
          simp [forwardLoop, hf, ht, hl, ih]
      · simp [forwardLoop, hf, ht, ih]

/-- `Loss.forward` returns the specification-side weighted sum, evaluated on
the preprocessed inputs. -/
theorem forward_fst (st : LossState) (F : FnId → Tensor → Tensor → ℚ) (dis : FnId → ℚ)
    (sr hr : Tensor) :
    (Loss.forward st F dis sr hr).1
      = weightedTermSum (fun f => F f (Loss.preprocess st sr) (Loss.preprocess st hr))
          st.lossList := by
  simp only [Loss.forward, weightedTermSum]
  rw [forwardLoop_fst]
  simp

/-- `Loss.forward` does not change the loss list (or any field besides the
log). -/
theorem forward_lossList (st : LossState) (F : FnId → Tensor → Tensor → ℚ)
    (dis : FnId → ℚ) (sr hr : Tensor) :
    (Loss.forward st F dis sr hr).2.lossList = st.lossList := rfl

/-- `Loss.forward` preserves the shape (row count and all row widths) of the
log. -/
theorem forward_log_map_length (st : LossState) (F : FnId → Tensor → Tensor → ℚ)
    (dis : FnId → ℚ) (sr hr : Tensor) :
    (Loss.forward st F dis sr hr).2.log.map List.length = st.log.map List.length := by
  simp only [Loss.forward]
  by_cases hn : st.lossList.length > 1
  · simp only [hn, if_true, addLastCol_map_length, forwardLoop_snd_map_length]
  · simp only [hn, if_false, forwardLoop_snd_map_length]

/-- With more than one configured entry and an exposed last log row,
`Loss.forward` edits exactly that row: the per-term writes (`rowLoop`) followed
by adding the weighted sum at the final column. -/
theorem forward_log_decomp (st : LossState) (F : FnId → Tensor → Tensor → ℚ)
    (dis : FnId → ℚ) (sr hr : Tensor) (rows : List (List ℚ)) (row : List ℚ)
    (hrow : st.log = rows ++ [row]) (hn : 1 < st.lossList.length) :
    (Loss.forward st F dis sr hr).2.log
      = rows ++ [addAt
          (rowLoop st.lossList
            (fun f => F f (Loss.preprocess st sr) (Loss.preprocess st hr)) dis
            st.lossList 0 row)
          (row.length - 1)
          (weightedTermSum
            (fun f => F f (Loss.preprocess st sr) (Loss.preprocess st hr)) st.lossList)] := by
  simp only [Loss.forward, weightedTermSum]
  simp only [hrow, gt_iff_lt, hn, if_true, forwardLoop_snd_append, addLastCol_append,
    rowLoop_length, forwardLoop_fst, List.nil_append]

/-- With more than one configured entry, an exposed last log row of matching
width, and a final entry that has no callable and is not the synthetic
discriminator entry, `Loss.forward` adds exactly the returned sum to the last
entry of the current log row. -/
theorem forward_lastcol (st : LossState) (F : FnId → Tensor → Tensor → ℚ)
    (dis : FnId → ℚ) (sr hr : Tensor) (rows : List (List ℚ)) (row : List ℚ) (l : LossTerm)
    (hrow : st.log = rows ++ [row]) (hlen : row.length = st.lossList.length)
    (hn : 1 < st.lossList.length)
    (hgl : st.lossList.getLast? = some l) (hlf : l.function = none)
    (hlt : l.type ≠ "DIS") :
    ((Loss.forward st F dis sr hr).2.log.getLast?.getD []).getLast?
      = some (row.getLast?.getD 0 + (Loss.forward st F dis sr hr).1) := by
  rw [forward_log_decomp st F dis sr hr rows row hrow hn, List.getLast?_concat,
    forward_fst]
  simp only [Option.getD_some]
  set F2 := fun f => F f (Loss.preprocess st sr) (Loss.preprocess st hr) with hF2
  have hb : ∀ (k : ℕ) (l2 : LossTerm), st.lossList.get? k = some l2 →
      (l2.function.isSome = true ∨ (l2.type == "DIS") = true) → 0 + k + 1 < row.length := by
    intro k l2 hk hc
    rw [List.get?_eq_getElem?] at hk
    rcases List.getElem?_eq_some_iff.mp hk with ⟨hklt, hkval⟩
    rcases Nat.lt_or_ge (k + 1) st.lossList.length with h | h
    · omega
    · have hk1 : k = st.lossList.length - 1 := by omega
      have hsame : st.lossList.getLast? = some l2 := by
        rw [List.getLast?_eq_getElem?, ← hk1, hk]
      rw [hgl] at hsame
      have : l = l2 := Option.some.inj hsame
      subst this
      rcases hc with hc | hc
      · rw [hlf] at hc; simp at hc
      · exact absurd (by simpa using hc) hlt
  have hrl : (rowLoop st.lossList F2 dis st.lossList 0 row).getLast? = row.getLast? :=
    rowLoop_getLast? st.lossList F2 dis st.lossList 0 row hb
  have hne : rowLoop st.lossList F2 dis st.lossList 0 row ≠ [] := by
    intro hemp
    have hll := rowLoop_length st.lossList F2 dis st.lossList 0 row
    rw [hemp] at hll
    simp at hll
    omega
  rcases List.eq_nil_or_concat (rowLoop st.lossList F2 dis st.lossList 0 row)
    with hemp | ⟨xs, z, hxz⟩
  · exact absurd hemp hne
  · rw [List.concat_eq_append] at hxz
    have hlen2 : row.length - 1 = xs.length := by
      have hll := rowLoop_length st.lossList F2 dis st.lossList 0 row
      rw [hxz] at hll
      simp at hll
      omega
    rw [hxz, hlen2, addAt_concat_self, List.getLast?_concat]
    have hz : row.getLast?.getD 0 = z := by
      rw [← hrl, hxz, List.getLast?_concat]
      rfl
    rw [hz]

/-- `Loss.start_log` appends exactly one zero row of width `len(self.loss)`. -/
theorem start_log_log (st : LossState) :
    (Loss.start_log st).log = st.log ++ [List.replicate st.lossList.length 0] := rfl

/-- `Loss.start_log` does not change the loss list. -/
theorem start_log_lossList (st : LossState) :
    (Loss.start_log st).lossList = st.lossList := rfl

/-- `Loss.end_log` does not change the loss list. -/
theorem end_log_lossList (st : LossState) (n : ℚ) :
    (Loss.end_log st n).lossList = st.lossList := rfl

/-- `Loss.end_log` preserves the shape of the log. -/
theorem end_log_map_length (st : LossState) (n : ℚ) :
    (Loss.end_log st n).log.map List.length = st.log.map List.length := by
  simp only [Loss.end_log]
  exact mapLastRow_map_length _ (fun r => by simp) st.log

/-- Stepping a scheduler `n` times adds `n` to its step counter and changes
nothing else. -/
theorem replaySched_schedulerSteps (m : SubModule) :
    ∀ n : ℕ, (replaySched m n).schedulerSteps = m.schedulerSteps.map (fun k => k + n)
  | 0 => by
    cases hs : m.schedulerSteps <;> simp [replaySched, hs]
  | n + 1 => by
    simp only [replaySched, schedStep, replaySched_schedulerSteps m n, Option.map_map]
    cases hs : m.schedulerSteps <;> simp [hs, Function.comp, Nat.add_assoc]

/-- Stepping a scheduler does not change the module identity. -/
theorem replaySched_fn (m : SubModule) : ∀ n : ℕ, (replaySched m n).fn = m.fn
  | 0 => rfl
  | n + 1 => by simp only [replaySched, schedStep, replaySched_fn m n]

/-- A malformed term (wrong number of `*`-separated fields, or a weight that
does not parse) makes the parsing-loop step raise, whatever the state. -/
theorem initStep_error_of_bad (args : Args) (t : String)
    (hbad : (pySplit t '*').length ≠ 2 ∨
      ∃ w ty, pySplit t '*' = [w, ty] ∧ pyFloat? w = none) :
    ∀ st, ∃ e, initStep args st t = Except.error e := by
  intro st
  rcases hbad with hlen | ⟨w, ty, hsplit, hw⟩
  · rcases hps : pySplit t '*' with _ | ⟨a, _ | ⟨b, _ | ⟨c, rest⟩⟩⟩
    · exact ⟨InitError.unpackValueError, by simp [initStep, hps]⟩
    · exact ⟨InitError.unpackValueError, by simp [initStep, hps]⟩
    · exact absurd (by rw [hps]; rfl) hlen
    · exact ⟨InitError.unpackValueError, by simp [initStep, hps]⟩
  · exact ⟨InitError.floatValueError, by simp [initStep, hsplit, hw]⟩

/-- The parsing-loop step never raises `NotImplementedError`: that exception
belongs to the intensity-kernel setup alone. -/
theorem initStep_ne_notImplemented (args : Args) (st : List LossTerm × Option FnId)
    (t : String) : initStep args st t ≠ Except.error InitError.notImplementedError := by
  unfold initStep
  rcases hps : pySplit t '*' with _ | ⟨a, _ | ⟨b, _ | ⟨c, rest⟩⟩⟩ <;> simp
  cases hw : pyFloat? a with
  | none => simp
  | some q =>
    simp only []
    cases hfn : (match dispatch args b with
      | some f => some f
      | none => st.2) with
    | none => simp
    | some f => simp

/-- If some term of the list is malformed, the parsing loop raises, whatever
the accumulated state. -/
theorem initFold_error_of_bad (args : Args) :
    ∀ (ts : List String) (st : List LossTerm × Option FnId),
    (∃ t ∈ ts, (pySplit t '*').length ≠ 2 ∨
      ∃ w ty, pySplit t '*' = [w, ty] ∧ pyFloat? w = none) →
    ∃ e, initFold args ts st = Except.error e := by
  intro ts
  induction ts with
  | nil => intro st h; rcases h with ⟨t, ht, _⟩; cases ht
  | cons t ts ih =>
    intro st h
    rcases h with ⟨t2, ht2, hbad⟩
    rcases List.mem_cons.mp ht2 with rfl | hmem
    · rcases initStep_error_of_bad args t2 hbad st with ⟨e, he⟩
      exact ⟨e, by simp [initFold, he]⟩
    · cases hs : initStep args st t with
      | error e => exact ⟨e, by simp [initFold, hs]⟩
      | ok st2 =>
        rcases ih st2 ⟨t2, hmem, hbad⟩ with ⟨e, he⟩
        exact ⟨e, by simp [initFold, hs, he]⟩

/-- The parsing loop never raises `NotImplementedError`. -/
theorem initFold_ne_notImplemented (args : Args) :
    ∀ (ts : List String) (st : List LossTerm × Option FnId),
    initFold args ts st ≠ Except.error InitError.notImplementedError := by
  intro ts
  induction ts with
  | nil => intro st h; cases h
  | cons t ts ih =>
    intro st
    cases hs : initStep args st t with
    | error e =>
      simp only [initFold, hs]
      intro h
      exact initStep_ne_notImplemented args st t (hs.trans (by rw [Except.error.injEq]; exact Except.error.inj h))
    | ok st2 =>
      simp only [initFold, hs]
      exact ih st2

/-- C1 counterexample: parsing "1*GAN" does NOT yield exactly two entries —
the list has three entries, because the `len(self.loss) > 1` check that
appends the synthetic "Total" entry counts the synthetic "DIS" entry too. -/
theorem claim1_gan_counterexample :
    ¬ ((Loss.init (plainArgs "1*GAN")).map (fun st => st.lossList.length) =
        Except.ok 2) := by
  intro h
  have h3 : (Loss.init (plainArgs "1*GAN")).map (fun st => st.lossList.length) =
      Except.ok 3 := by
    norm_num +decide [Loss.init, initFold, initStep, intensityConvOf, dispatch, pySplit,
      splitChar, strContains, occursIn, firstMatches, pyFloat?, pyFloatCore, takeDigits,
      natFromDigits, plainArgs]
    rfl
  rw [h3] at h
  simp at h

/-- C1 (amended): constructing `Loss` with configuration "1*GAN" yields three
entries in order: the adversarial term (weight 1), the synthetic discriminator
entry "DIS" (weight 1, no callable), and — because the "DIS" entry already
makes the list longer than one — a synthetic "Total" entry (weight 0, no
callable). -/
theorem claim1_gan_parse :
    (Loss.init (plainArgs "1*GAN")).map (fun st => st.lossList) =
      Except.ok
        [⟨"GAN", 1, some (FnId.Adversarial "GAN")⟩, ⟨"DIS", 1, none⟩,
         ⟨"Total", 0, none⟩] := by
  norm_num +decide [Loss.init, initFold, initStep, intensityConvOf, dispatch, pySplit,
    splitChar, strContains, occursIn, firstMatches, pyFloat?, pyFloatCore, takeDigits,
    natFromDigits, plainArgs]
  rfl

/-- C2 (code bug): an unrecognized kind in a non-first position does NOT make
construction fail — the dispatch chain has no `else`, so the Python local
`loss_function` keeps the previous term's value and "1*MSE+1*XYZ" constructs
successfully with a bogus "XYZ" entry that reuses the MSE callable.  Only when
the unrecognized kind comes first does construction fail, and then merely with
`NameError` from the never-assigned local. -/
theorem claim2_unrecognized_kind_bug :
    (Loss.init (plainArgs "1*MSE+1*XYZ")).map (fun st => st.lossList) =
      Except.ok
        [⟨"MSE", 1, some FnId.MSELoss⟩, ⟨"XYZ", 1, some FnId.MSELoss⟩,
         ⟨"Total", 0, none⟩]
    ∧ Loss.init (plainArgs "1*XYZ") = Except.error InitError.nameError := by
  constructor
  · norm_num +decide [Loss.init, initFold, initStep, intensityConvOf, dispatch, pySplit,
      splitChar, strContains, occursIn, firstMatches, pyFloat?, pyFloatCore, takeDigits,
      natFromDigits, plainArgs]
    rfl
  · norm_num +decide [Loss.init, initFold, initStep, intensityConvOf, dispatch, pySplit,
      splitChar, strContains, occursIn, firstMatches, pyFloat?, pyFloatCore, takeDigits,
      natFromDigits, plainArgs]

/-- C6: constructing `Loss` with configuration "1*MSE+0.5*L1" yields, in
order, a real MSE term with weight 1, a real L1 term with weight 0.5, no
synthetic discriminator entry, and exactly one appended "Total" entry with
weight 0 and no callable. -/
theorem claim6_parse_mse_l1 :
    (Loss.init (plainArgs "1*MSE+0.5*L1")).map (fun st => st.lossList) =
      Except.ok
        [⟨"MSE", 1, some FnId.MSELoss⟩, ⟨"L1", 1/2, some FnId.L1Loss⟩,
         ⟨"Total", 0, none⟩] := by
  norm_num +decide [Loss.init, initFold, initStep, intensityConvOf, dispatch, pySplit,
    splitChar, strContains, occursIn, firstMatches, pyFloat?, pyFloatCore, takeDigits,
    natFromDigits, plainArgs]
  rfl

/-- C3 counterexample: under intensity mode, a color range other than 255 does
NOT necessarily raise — with range 300 construction succeeds, because the
`if rgb_range == 255` / `elif rgb_range == 1` chain has no final `else`, and
the intensity kernel silently stays all-zero. -/
theorem claim3_intensity_counterexample :
    Loss.init (intensityArgs "1*MSE" 300) = Except.ok stIntensity300 := by
  norm_num +decide [Loss.init, initFold, initStep, intensityConvOf, dispatch, pySplit,
    splitChar, strContains, occursIn, firstMatches, pyFloat?, pyFloatCore, takeDigits,
    natFromDigits, intensityArgs, stIntensity300]

/-- C3 (amended): under intensity-projection mode, color range 255 builds the
fixed 1x1 convolution with luma weights 0.299/0.587/0.114, which the forward
input transformation applies (before the optional normalization); color range
1 raises `NotImplementedError` at construction time; and any other color range
never raises that error — construction proceeds with a zero kernel. -/
theorem claim3_intensity_modes (args : Args) (h : args.intensity_loss = true) :
    (∀ st, Loss.init args = Except.ok st → args.rgb_range = 255 →
        st.intensity_conv = [299/1000, 587/1000, 114/1000]
        ∧ ∀ t, Loss.preprocess st t =
            (if st.normalize then
              tdiv (conv1x1 [299/1000, 587/1000, 114/1000] t) st.rgb_range
             else conv1x1 [299/1000, 587/1000, 114/1000] t))
    ∧ (args.rgb_range = 1 → Loss.init args = Except.error InitError.notImplementedError)
    ∧ (args.rgb_range ≠ 1 → Loss.init args ≠ Except.error InitError.notImplementedError) := by
  refine ⟨?_, ?_, ?_⟩
  · intro st hok h255
    have hconv : intensityConvOf args = Except.ok [299/1000, 587/1000, 114/1000] := by
      simp [intensityConvOf, h, h255]
    simp only [Loss.init, hconv] at hok
    cases hfold : initFold args (pySplit args.loss '+') ([], none) with
    | error e => rw [hfold] at hok; simp at hok
    | ok p =>
      rw [hfold] at hok
      simp only [] at hok
      obtain rfl := Except.ok.inj hok
      constructor
      · rfl
      · intro t
        simp [Loss.preprocess, h]
  · intro h1
    have hconv : intensityConvOf args = Except.error InitError.notImplementedError := by
      simp [intensityConvOf, h, h1]
    simp [Loss.init, hconv]
  · intro h1
    cases hconv : intensityConvOf args with
    | ok conv =>
      intro hcontra
      simp only [Loss.init, hconv] at hcontra
      cases hfold : initFold args (pySplit args.loss '+') ([], none) with
      | error e =>
        rw [hfold] at hcontra
        simp only [] at hcontra
        have he : e = InitError.notImplementedError := Except.error.inj hcontra
        subst he
        exact initFold_ne_notImplemented args _ _ hfold
      | ok p =>
        rw [hfold] at hcontra
        simp at hcontra
    | error e =>
      exfalso
      rw [intensityConvOf, h] at hconv
      by_cases h255 : (args.rgb_range == 255) = true
      · simp [h255] at hconv
      · have h1b : (args.rgb_range == 1) = false := by
          simp [beq_iff_eq, h1]
        simp [h255, h1b] at hconv

/-- C3 witness: the amended claim instantiated at a concrete intensity-mode
construction with color range 255. -/
theorem claim3_intensity_modes_witness :
    Loss.init (intensityArgs "1*MSE" 255) = Except.ok stIntensity
    ∧ stIntensity.intensity_conv = [299/1000, 587/1000, 114/1000] := by
  have hinit : Loss.init (intensityArgs "1*MSE" 255) = Except.ok stIntensity := by
    norm_num +decide [Loss.init, initFold, initStep, intensityConvOf, dispatch, pySplit,
      splitChar, strContains, occursIn, firstMatches, pyFloat?, pyFloatCore, takeDigits,
      natFromDigits, intensityArgs, stIntensity]
  exact ⟨hinit,
    ((claim3_intensity_modes (intensityArgs "1*MSE" 255) rfl).1 stIntensity hinit rfl).1⟩

/-- C7: for every configuration string in which some '+'-separated term lacks
a '*' separator (the two-way unpack fails) or has a weight field that does not
parse as a float, constructing `Loss` fails with an error — no default weight
is substituted and no term is skipped. -/
theorem claim7_malformed_term_errors (args : Args) (t : String)
    (hmem : t ∈ pySplit args.loss '+')
    (hbad : (pySplit t '*').length ≠ 2 ∨
      ∃ w ty, pySplit t '*' = [w, ty] ∧ pyFloat? w = none) :
    ∃ e, Loss.init args = Except.error e := by
  cases hconv : intensityConvOf args with
  | error e => exact ⟨e, by simp [Loss.init, hconv]⟩
  | ok conv =>
    rcases initFold_error_of_bad args (pySplit args.loss '+') ([], none)
        ⟨t, hmem, hbad⟩ with ⟨e, he⟩
    exact ⟨e, by simp [Loss.init, hconv, he]⟩

/-- C7 witness: the term "abc" of "1*MSE+abc" has no '*' separator, and
construction indeed fails. -/
theorem claim7_malformed_term_errors_witness :
    "abc" ∈ pySplit (plainArgs "1*MSE+abc").loss '+'
    ∧ ∃ e, Loss.init (plainArgs "1*MSE+abc") = Except.error e :=
  ⟨by decide,
    claim7_malformed_term_errors (plainArgs "1*MSE+abc") "abc" (by decide)
      (Or.inl (by decide))⟩

/-- C8: `Loss.load` restores the log matrix, and advances the scheduler of
every sub-module that has one by exactly one step per row of the restored log,
leaving sub-modules without a scheduler untouched. -/
theorem claim8_load_replays_schedulers (modules : List SubModule)
    (restoredLog : List (List ℚ)) :
    (Loss.load modules restoredLog).2 = restoredLog
    ∧ (Loss.load modules restoredLog).1
      = modules.map (fun m =>
          { m with schedulerSteps :=
              m.schedulerSteps.map (fun k => k + restoredLog.length) }) := by
  refine ⟨rfl, ?_⟩
  simp only [Loss.load]
  apply List.map_congr_left
  intro m _
  obtain ⟨fn, steps⟩ := m
  cases steps with
  | none => simp
  | some k =>
    simp only [Option.isSome_some, if_true, Option.map_some]
    have h1 := replaySched_fn ⟨fn, some k⟩ restoredLog.length
    have h2 := replaySched_schedulerSteps ⟨fn, some k⟩ restoredLog.length
    cases hr : replaySched ⟨fn, some k⟩ restoredLog.length with
    | mk fn2 steps2 =>
      rw [hr] at h1 h2
      simp only [Option.map_some] at h2
      simp at h1
      simp [h1, h2]

/-- C10: `Loss.end_log(n_batches)` divides only the last row of the log matrix
by `n_batches`; every earlier row and the number of rows are unchanged. -/
theorem claim10_end_log_frame (st : LossState) (n : ℚ) :
    (Loss.end_log st n).log.length = st.log.length
    ∧ (Loss.end_log st n).log.dropLast = st.log.dropLast
    ∧ (Loss.end_log st n).log.getLast?
        = st.log.getLast?.map (List.map (fun v => v / n)) := by
  rcases List.eq_nil_or_concat st.log with hnil | ⟨rows, row, hrow⟩
  · simp [Loss.end_log, hnil, mapLastRow]
  · rw [List.concat_eq_append] at hrow
    simp only [Loss.end_log, hrow, mapLastRow_append]
    exact ⟨by simp, by simp [List.dropLast_concat],
      by simp [List.getLast?_concat]⟩

/-- Lists of rows with equal shape satisfy the same all-rows length bound. -/
theorem all_len_of_map_length : ∀ (log2 log : List (List ℚ)) (c : ℕ),
    log2.map List.length = log.map List.length →
    (log.all fun r => r.length == c) = true →
    (log2.all fun r => r.length == c) = true := by
  intro log2
  induction log2 with
  | nil => intro log c _ _; rfl
  | cons r2 l2 ih =>
    intro log c hm h
    cases log with
    | nil => simp at hm
    | cons r l =>
      simp only [List.map_cons, List.cons.injEq] at hm
      simp only [List.all_cons, Bool.and_eq_true] at h ⊢
      refine ⟨?_, ih l c hm.2 h.2⟩
      rw [hm.1]
      exact h.1

/-- Unfolding one step of the logging life cycle. -/
theorem runLogOps_cons (st : LossState) (op : LogOp) (ops : List LogOp) :
    runLogOps st (op :: ops) = runLogOps (applyLogOp st op) ops := rfl

/-- No logging-life-cycle call changes the loss list. -/
theorem applyLogOp_lossList (st : LossState) (op : LogOp) :
    (applyLogOp st op).lossList = st.lossList := by
  cases op <;> rfl

/-- Any sequence of logging-life-cycle calls preserves the all-rows width
invariant. -/
theorem runLogOps_all_len : ∀ (ops : List LogOp) (st : LossState) (c : ℕ),
    st.lossList.length = c →
    (st.log.all fun r => r.length == c) = true →
    ((runLogOps st ops).log.all fun r => r.length == c) = true := by
  intro ops
  induction ops with
  | nil => intro st c _ h; exact h
  | cons op ops ih =>
    intro st c hc h
    rw [runLogOps_cons]
    apply ih (applyLogOp st op) c
    · rw [applyLogOp_lossList]; exact hc
    · cases op with
      | startLog =>
        simp only [applyLogOp, start_log_log]
        simp [List.all_append, h, hc]
      | forwardOp F2 dis2 sr2 hr2 =>
        exact all_len_of_map_length _ _ c (forward_log_map_length st F2 dis2 sr2 hr2) h
      | endLog n2 =>
        exact all_len_of_map_length _ _ c (end_log_map_length st n2) h

/-- C9: after construction, every row of the log matrix has exactly
`len(self.loss)` columns throughout any sequence of `start_log`, `forward`
and `end_log` calls: `start_log` appends exactly one zero row of that width,
`forward` and `end_log` never change the number of rows or any row width, and
the all-rows width invariant is preserved by every such sequence. -/
theorem claim9_log_shape (st : LossState) (ops : List LogOp)
    (F : FnId → Tensor → Tensor → ℚ) (dis : FnId → ℚ) (sr hr : Tensor) (n : ℚ) :
    (Loss.start_log st).log = st.log ++ [List.replicate st.lossList.length 0]
    ∧ (Loss.forward st F dis sr hr).2.log.map List.length = st.log.map List.length
    ∧ (Loss.end_log st n).log.map List.length = st.log.map List.length
    ∧ ((st.log.all fun r => r.length == st.lossList.length) = true →
        ((runLogOps st ops).log.all fun r => r.length == st.lossList.length) = true) :=
  ⟨rfl, forward_log_map_length st F dis sr hr, end_log_map_length st n,
    runLogOps_all_len ops st st.lossList.length rfl⟩

/-- C9 witness: the invariant instantiated on a concrete three-entry state
with one started row, running a start / forward / end cycle. -/
theorem claim9_log_shape_witness :
    ((stTwoTermRow.log.all fun r => r.length == stTwoTermRow.lossList.length) = true)
    ∧ (((runLogOps stTwoTermRow
          [LogOp.startLog,
           LogOp.forwardOp (fun _ _ _ => 1) (fun _ => 0) [] [],
           LogOp.endLog 2]).log.all
          fun r => r.length == stTwoTermRow.lossList.length) = true) :=
  ⟨by decide,
    (claim9_log_shape stTwoTermRow
        [LogOp.startLog,
         LogOp.forwardOp (fun _ _ _ => 1) (fun _ => 0) [] [],
         LogOp.endLog 2]
        (fun _ _ _ => 1) (fun _ => 0) [] [] 2).2.2.2 (by decide)⟩

/-- C4: every `forward(sr, hr)` call returns the sum, over exactly the
loss-list entries with a callable, of weight times the callable's value on the
preprocessed (possibly projected/normalized) inputs — entries with no callable
contribute nothing to the returned scalar — and when the loss list has more
than one entry (so a final no-callable, non-"DIS" entry exists), this same sum
is additionally accumulated into the last column of the current log row. -/
theorem claim4_forward_sum (st : LossState) (F : FnId → Tensor → Tensor → ℚ)
    (dis : FnId → ℚ) (sr hr : Tensor) :
    (Loss.forward st F dis sr hr).1
      = weightedTermSum (fun f => F f (Loss.preprocess st sr) (Loss.preprocess st hr))
          st.lossList
    ∧ (∀ (rows : List (List ℚ)) (row : List ℚ) (l : LossTerm),
        st.log = rows ++ [row] → row.length = st.lossList.length →
        1 < st.lossList.length →
        st.lossList.getLast? = some l → l.function = none → l.type ≠ "DIS" →
        ((Loss.forward st F dis sr hr).2.log.getLast?.getD []).getLast?
          = some (row.getLast?.getD 0 + (Loss.forward st F dis sr hr).1)) :=
  ⟨forward_fst st F dis sr hr,
   fun rows row l hrow hlen hn hgl hlf hlt =>
     forward_lastcol st F dis sr hr rows row l hrow hlen hn hgl hlf hlt⟩

/-- C4 witness: the accumulation property instantiated on a concrete
three-entry state with one started row. -/
theorem claim4_forward_sum_witness :
    ((Loss.forward stTwoTermRow (fun _ _ _ => 10) (fun _ => 0) [] []).2.log.getLast?.getD
        []).getLast?
      = some ((([0, 0, 0] : List ℚ).getLast?.getD 0)
          + (Loss.forward stTwoTermRow (fun _ _ _ => 10) (fun _ => 0) [] []).1) :=
  (claim4_forward_sum stTwoTermRow (fun _ _ _ => 10) (fun _ => 0) [] []).2
    [] [0, 0, 0] ⟨"Total", 0, none⟩ rfl (by decide) (by decide) (by decide) rfl
    (by decide)

/-- C5: for a loss list with more than one entry (whose final entry is the
synthetic no-callable, non-"DIS" "Total" entry), after `start_log`, then two
`forward` calls returning per-batch weighted sums s1 and s2, then
`end_log(2)`, the last ("Total") column of the current log row equals
(s1 + s2) / 2. -/
theorem claim5_total_average (st : LossState) (F : FnId → Tensor → Tensor → ℚ)
    (dis1 dis2 : FnId → ℚ) (sr1 hr1 sr2 hr2 : Tensor) (l : LossTerm)
    (hn : 1 < st.lossList.length)
    (hgl : st.lossList.getLast? = some l) (hlf : l.function = none)
    (hlt : l.type ≠ "DIS") :
    (((Loss.end_log
          ((Loss.forward ((Loss.forward (Loss.start_log st) F dis1 sr1 hr1).2)
            F dis2 sr2 hr2).2) 2).log.getLast?.getD []).getLast?.getD 0)
      = ((Loss.forward (Loss.start_log st) F dis1 sr1 hr1).1
          + (Loss.forward ((Loss.forward (Loss.start_log st) F dis1 sr1 hr1).2)
              F dis2 sr2 hr2).1) / 2 := by
  have h0log : (Loss.start_log st).log
      = st.log ++ [List.replicate st.lossList.length 0] := rfl
  have h0list : (Loss.start_log st).lossList = st.lossList := rfl
  have hrow0len : (List.replicate st.lossList.length (0 : ℚ)).length
      = (Loss.start_log st).lossList.length := by
    rw [h0list, List.length_replicate]
  have hrow0last : (List.replicate st.lossList.length (0 : ℚ)).getLast?.getD 0 = 0 := by
    rw [List.getLast?_replicate]
    by_cases h : st.lossList.length = 0 <;> simp [h]
  -- first forward call
  have h1 := forward_log_decomp (Loss.start_log st) F dis1 sr1 hr1 st.log
    (List.replicate st.lossList.length 0) h0log (by rw [h0list]; exact hn)
  have hlc1 := forward_lastcol (Loss.start_log st) F dis1 sr1 hr1 st.log
    (List.replicate st.lossList.length 0) l h0log hrow0len
    (by rw [h0list]; exact hn) (by rw [h0list]; exact hgl) hlf hlt
  set row1 := addAt
    (rowLoop (Loss.start_log st).lossList
      (fun f => F f (Loss.preprocess (Loss.start_log st) sr1)
        (Loss.preprocess (Loss.start_log st) hr1)) dis1
      (Loss.start_log st).lossList 0 (List.replicate st.lossList.length 0))
    ((List.replicate st.lossList.length (0 : ℚ)).length - 1)
    (weightedTermSum
      (fun f => F f (Loss.preprocess (Loss.start_log st) sr1)
        (Loss.preprocess (Loss.start_log st) hr1))
      (Loss.start_log st).lossList) with hrow1def
  have hrow1len : row1.length = st.lossList.length := by
    rw [hrow1def, addAt_length, rowLoop_length, List.length_replicate]
  have hrow1last : row1.getLast? = some (0
      + (Loss.forward (Loss.start_log st) F dis1 sr1 hr1).1) := by
    have := hlc1
    rw [h1, List.getLast?_concat] at this
    simp only [Option.getD_some] at this
    rw [hrow0last] at this
    exact this
  -- second forward call
  have h1list : (Loss.forward (Loss.start_log st) F dis1 sr1 hr1).2.lossList
      = st.lossList := rfl
  have h2 := forward_log_decomp ((Loss.forward (Loss.start_log st) F dis1 sr1 hr1).2)
    F dis2 sr2 hr2 st.log row1 h1 (by rw [h1list]; exact hn)
  have hlc2 := forward_lastcol ((Loss.forward (Loss.start_log st) F dis1 sr1 hr1).2)
    F dis2 sr2 hr2 st.log row1 l h1 (by rw [h1list]; exact hrow1len)
    (by rw [h1list]; exact hn) (by rw [h1list]; exact hgl) hlf hlt
  set row2 := addAt
    (rowLoop (Loss.forward (Loss.start_log st) F dis1 sr1 hr1).2.lossList
      (fun f => F f
        (Loss.preprocess (Loss.forward (Loss.start_log st) F dis1 sr1 hr1).2 sr2)
        (Loss.preprocess (Loss.forward (Loss.start_log st) F dis1 sr1 hr1).2 hr2)) dis2
      (Loss.forward (Loss.start_log st) F dis1 sr1 hr1).2.lossList 0 row1)
    (row1.length - 1)
    (weightedTermSum
      (fun f => F f
        (Loss.preprocess (Loss.forward (Loss.start_log st) F dis1 sr1 hr1).2 sr2)
        (Loss.preprocess (Loss.forward (Loss.start_log st) F dis1 sr1 hr1).2 hr2))
      (Loss.forward (Loss.start_log st) F dis1 sr1 hr1).2.lossList) with hrow2def
  have hrow2last : row2.getLast? = some (row1.getLast?.getD 0
      + (Loss.forward ((Loss.forward (Loss.start_log st) F dis1 sr1 hr1).2)
          F dis2 sr2 hr2).1) := by
    have := hlc2
    rw [h2, List.getLast?_concat] at this
    simp only [Option.getD_some] at this
    exact this
  -- end_log 2
  have hend : (Loss.end_log
      ((Loss.forward ((Loss.forward (Loss.start_log st) F dis1 sr1 hr1).2)
        F dis2 sr2 hr2).2) 2).log
      = st.log ++ [row2.map (fun v => v / 2)] := by
    simp only [Loss.end_log, h2, mapLastRow_append]
  rw [hend, List.getLast?_concat]
  simp only [Option.getD_some]
  rw [List.getLast?_map, hrow2last, hrow1last]
  simp

/-- C5 witness: the epoch-average property instantiated on a concrete
three-entry state with constant term values. -/
theorem claim5_total_average_witness :
    1 < stTwoTerm.lossList.length
    ∧ (((Loss.end_log
          ((Loss.forward
            ((Loss.forward (Loss.start_log stTwoTerm)
              (fun _ _ _ => 10) (fun _ => 0) [] []).2)
            (fun _ _ _ => 10) (fun _ => 0) [] []).2) 2).log.getLast?.getD
          []).getLast?.getD 0)
      = ((Loss.forward (Loss.start_log stTwoTerm) (fun _ _ _ => 10) (fun _ => 0) [] []).1
          + (Loss.forward
              ((Loss.forward (Loss.start_log stTwoTerm)
                (fun _ _ _ => 10) (fun _ => 0) [] []).2)
              (fun _ _ _ => 10) (fun _ => 0) [] []).1) / 2 :=
  ⟨by decide,
    claim5_total_average stTwoTerm (fun _ _ _ => 10) (fun _ => 0) (fun _ => 0) [] [] [] []
      ⟨"Total", 0, none⟩ (by decide) rfl rfl (by decide)⟩
